import Mathlib

/-!
Shallow embedding of the core of `scripts/clip-matcher.py` (the wardarr
episode-verification tool), together with proofs about its match-decision
pipeline: reference-image brokering, threshold clamping, the per-still /
per-frame similarity scan with early stopping, the strict and lenient
decision policies, exit-code mapping, and scratch-space lifecycle.

Similarities are modelled as rationals (the python floats carry exact
decimal-scale values in every claim considered here), file paths as natural
number identifiers, and the external world (provider replies, download and
decode success, per-frame similarity scores) as an explicit environment
record threaded through the run.
-/

namespace ClipMatcher

/-- Provider tag attached to each candidate still (the `source` field of the
entries of `stills_to_process_list`, lines 456, 462, 472, 476 of
`clip-matcher.py`); `unknown` stands for any other string, which the loop
skips at lines 534-536. -/
inductive Source where
  | forced
  | omdb
  | tvdb
  | tmdb
  | unknown
deriving DecidableEq, Repr

/-- One entry of `stills_to_process_list`: a `file_path` reference (path or
URL, modelled as an identifier) plus its source tag. -/
structure StillInfo where
  file_path : ℕ
  source : Source
deriving DecidableEq, Repr

/-- Line 57: `EARLY_STOP_THRESHOLD = 0.79`. -/
def EARLY_STOP_THRESHOLD : ℚ := 79 / 100

/-- Lines 718-724 of `main`: if the supplied threshold is below the default,
round it up by one hundredth (via `math.floor(t * 100) + 1) / 100`), capping
the bumped value at the default. -/
def clampThreshold (early_stop : ℚ) : ℚ :=
  if early_stop < EARLY_STOP_THRESHOLD then
    let bumped : ℚ := ((⌊early_stop * 100⌋ : ℤ) + 1 : ℚ) / 100
    if bumped > EARLY_STOP_THRESHOLD then EARLY_STOP_THRESHOLD else bumped
  else early_stop

/-- Lines 461-462, 471-472, 475-476: a provider contributes its stills,
tagged with its source, only when its lookup returned a non-empty result
(`none` models a missing API key, a failed query, or an empty reply). -/
def tagStills (images : Option (List ℕ)) (src : Source) : List StillInfo :=
  match images with
  | some l => if 0 < l.length then l.map (fun p => ⟨p, src⟩) else []
  | none => []

/-- Lines 457-476: `stills_to_process_list` is built by extending an empty
list with OMDb stills, then TVDB stills, then TMDB stills. -/
def gatherProviderStills (omdb_images tvdb_images episode_images : Option (List ℕ)) :
    List StillInfo :=
  let stills0 : List StillInfo := []
  let stills1 := stills0 ++ tagStills omdb_images .omdb
  let stills2 := stills1 ++ tagStills tvdb_images .tvdb
  let stills3 := stills2 ++ tagStills episode_images .tmdb
  stills3

/-- Lines 450-479: with a forced still path the broker returns that single
candidate when the file exists (`none` models the `return False` at line
455); otherwise it queries the providers and bails out (`none`, line 479)
when no provider produced anything. -/
def gatherCandidates (force_still_path : Option ℕ) (forceExists : Bool)
    (omdb_images tvdb_images episode_images : Option (List ℕ)) :
    Option (List StillInfo) :=
  match force_still_path with
  | some p => if forceExists then some [⟨p, .forced⟩] else none
  | none =>
    let l := gatherProviderStills omdb_images tvdb_images episode_images
    if l.isEmpty then none else some l

/-- Lines 450-479: the metadata providers are only consulted in the
`else` branch, i.e. when no forced still path was supplied. -/
def providersQueried (force_still_path : Option ℕ) : List Source :=
  match force_still_path with
  | some _ => []
  | none => [.omdb, .tvdb, .tmdb]

/-- Lines 480 and 521: `stills_to_process = min(len(list), max_stills)` and
the loop iterates `stills_to_process_list[:stills_to_process]`. -/
def effectiveStills (stills_to_process_list : List StillInfo) (max_stills : ℕ) :
    List StillInfo :=
  stills_to_process_list.take (min stills_to_process_list.length max_stills)

/-- Local path a candidate still is read from: a forced still is opened at
its own path (line 524), every other source is downloaded to
`TEMP_DIR/{safe}_still_{i+1}.jpg` (line 537), identified here by `i + 1`. -/
inductive SPath where
  | forcedPath (p : ℕ)
  | tempStill (i : ℕ)
deriving DecidableEq, Repr

/-- The environment a run observes: the extracted frame paths (line 501),
whether `download_image` succeeds for the still at a given loop index
(lines 539-541), whether `Image.open` succeeds on that still (lines
545-550), whether a given frame of that still's scan is processed without
error inside `process_batch` (lines 357-368), and the cosine similarity
scored for (still index, frame path) (line 365). -/
structure RunEnv where
  frames : List ℕ
  downloadOk : ℕ → Bool
  decodeOk : ℕ → Bool
  frameOk : ℕ → ℕ → Bool
  sim : ℕ → ℕ → ℚ

/-- Lines 515-519: the running global best
(`max_similarity`, `best_match_frame`, `best_match_still`,
`best_match_still_path`, `best_match_source`). -/
structure GlobalBest where
  max_similarity : ℚ
  best_match_frame : Option ℕ
  best_match_still : Option ℕ
  best_match_still_path : Option SPath
  best_match_source : Option Source
deriving DecidableEq, Repr

/-- Initial global best: `max_similarity = 0.0`, nothing found yet. -/
def GlobalBest.init : GlobalBest := ⟨0, none, none, none, none⟩

/-- Lines 560-561: the per-still running state
(`still_max_similarity = 0.0`, `still_best_match = None`). -/
structure StillScan where
  still_max_similarity : ℚ
  still_best_match : Option ℕ
deriving DecidableEq, Repr

/-- Lines 600-605: the record appended to `still_matches` for one still. -/
structure MatchResult where
  still_index : ℕ
  max_similarity : ℚ
  best_match : Option ℕ
  still_path : SPath
deriving DecidableEq, Repr

/-- Lines 573-593: fold step over one scored frame. Updates the per-still
best under `similarity > still_max_similarity` and the global best under
`similarity > max_similarity` (both strict; line 577 and line 583), the
global update recording frame, still index (`still_index + 1`), still path
and source. The early-stop prints at lines 591-593 and 595-597 change no
state and contain no `break`. -/
def scoreFrame (still_index : ℕ) (still_path : SPath) (source : Source)
    (st : StillScan × GlobalBest) (r : ℕ × ℚ) : StillScan × GlobalBest :=
  let s := st.1
  let g := st.2
  let frame_path := r.1
  let similarity := r.2
  let s' : StillScan :=
    if s.still_max_similarity < similarity then ⟨similarity, some frame_path⟩ else s
  let g' : GlobalBest :=
    if g.max_similarity < similarity then
      ⟨similarity, some frame_path, some (still_index + 1), some still_path, some source⟩
    else g
  (s', g')

/-- Lines 353-369 (`process_batch`): each frame of the batch is embedded and
scored against the still; a frame whose processing raises is skipped and
contributes no result. -/
def process_batch (env : RunEnv) (still_index : ℕ) (batch : List ℕ) : List (ℕ × ℚ) :=
  batch.filterMap (fun frame_path =>
    if env.frameOk still_index frame_path then
      some (frame_path, env.sim still_index frame_path)
    else none)

/-- Line 564: `BATCH_SIZE = 10`. -/
def BATCH_SIZE : ℕ := 10

/-- Lines 565-568: `num_batches = (len + BATCH_SIZE - 1) // BATCH_SIZE` and
`batch = frame_paths[i * BATCH_SIZE:(i + 1) * BATCH_SIZE]` for each
`i in range(num_batches)`. -/
def frameBatches (batchSize : ℕ) (frame_paths : List ℕ) : List (List ℕ) :=
  (List.range ((frame_paths.length + batchSize - 1) / batchSize)).map
    (fun i => (frame_paths.drop (i * batchSize)).take batchSize)

/-- Lines 558-597: scan all frames against one still, batch by batch,
folding `scoreFrame` over each batch's results, starting from the fresh
per-still state and the incoming global best. -/
def scanFrames (env : RunEnv) (still_index : ℕ) (still_path : SPath) (source : Source)
    (g : GlobalBest) : StillScan × GlobalBest :=
  (frameBatches BATCH_SIZE env.frames).foldl
    (fun st batch => (process_batch env still_index batch).foldl
      (scoreFrame still_index still_path source) st)
    (⟨0, none⟩, g)

/-- Modelled from the spec's words, for the refinement claim about batching:
the same scan processing the frames one by one in extraction order, with no
batching. -/
def scanFramesOneByOne (env : RunEnv) (still_index : ℕ) (still_path : SPath)
    (source : Source) (g : GlobalBest) : StillScan × GlobalBest :=
  (process_batch env still_index env.frames).foldl
    (scoreFrame still_index still_path source) (⟨0, none⟩, g)

/-- Lines 521-611, body of the loop for one candidate still: resolve the
local still path (forced stills are used in place, an unknown source is
skipped at lines 534-536, a failed download is skipped at lines 539-541),
skip the still when its image cannot be opened (lines 545-550), otherwise
scan every frame and return the updated global best together with the
`MatchResult` appended to `still_matches` (lines 600-605). `none` means the
candidate was skipped with `continue` and nothing was recorded. -/
def processStill (env : RunEnv) (still_index : ℕ) (still_info : StillInfo)
    (g : GlobalBest) : Option (GlobalBest × MatchResult) :=
  let resolved : Option SPath :=
    match still_info.source with
    | .forced => some (.forcedPath still_info.file_path)
    | .unknown => none
    | _ =>
      if env.downloadOk still_index then some (.tempStill (still_index + 1)) else none
  match resolved with
  | none => none
  | some still_path =>
    if env.decodeOk still_index then
      let sg := scanFrames env still_index still_path still_info.source g
      some (sg.2, ⟨still_index + 1, sg.1.still_max_similarity, sg.1.still_best_match,
        still_path⟩)
    else none

/-- Lines 521-615: iterate the candidate stills in priority order, threading
the global best, collecting `still_matches`, and recording which loop
indices were visited at all; lines 612-615 `break` out of the loop as soon
as the just-recorded still's best similarity reaches the threshold. -/
def processStills (env : RunEnv) (t : ℚ) :
    List StillInfo → ℕ → GlobalBest → GlobalBest × List MatchResult × List ℕ
  | [], _, g => (g, [], [])
  | info :: rest, still_index, g =>
    match processStill env still_index info g with
    | none =>
      let r := processStills env t rest (still_index + 1) g
      (r.1, r.2.1, still_index :: r.2.2)
    | some (g', m) =>
      if t ≤ m.max_similarity then (g', [m], [still_index])
      else
        let r := processStills env t rest (still_index + 1) g'
        (r.1, m :: r.2.1, still_index :: r.2.2)

/-- A whole scoring run over a candidate list, starting from loop index 0
and the initial global best. -/
def runMatch (env : RunEnv) (t : ℚ) (stills : List StillInfo) :
    GlobalBest × List MatchResult × List ℕ :=
  processStills env t stills 0 GlobalBest.init

/-- Lines 618-624: strict mode requires every recorded still's best
similarity to reach the threshold (`all(...)` over `still_matches`). -/
def strictVerdict (t : ℚ) (still_matches : List MatchResult) : Bool :=
  still_matches.all (fun m => decide (t ≤ m.max_similarity))

/-- Lines 625-627: lenient mode requires only the global best similarity to
reach the threshold. -/
def lenientVerdict (t : ℚ) (g : GlobalBest) : Bool :=
  decide (t ≤ g.max_similarity)

/-- Lines 617-627: the verdict under the selected policy. -/
def isMatchVerdict (strict_mode : Bool) (t : ℚ) (g : GlobalBest)
    (still_matches : List MatchResult) : Bool :=
  if strict_mode then strictVerdict t still_matches else lenientVerdict t g

/-- Lines 633-635: the best-match comparison artifact is written only when
both `best_match_frame` and `best_match_still_path` are set. -/
def emitsBestArtifact (g : GlobalBest) : Bool :=
  g.best_match_frame.isSome && g.best_match_still_path.isSome

/-- Outcome of the body of `process_media_file`: either it runs to one of
its `return` statements with a boolean, or some statement in it raises an
Exception. -/
inductive PipelineOutcome where
  | ok (is_match : Bool)
  | raises
deriving DecidableEq, Repr

/-- Lines 421-680: the whole body of `process_media_file` sits in a
`try` whose handler (lines 677-680) catches any Exception, logs it, and
returns `False`; so the function itself never propagates an Exception. -/
def process_media_file (o : PipelineOutcome) : Except Unit Bool :=
  match o with
  | .ok b => Except.ok b
  | .raises => Except.ok false

/-- Lines 732-740 of `main`: call `process_media_file`, exit 0 on a match
and 1 otherwise; an Exception escaping `process_media_file` would be
mapped to exit code 2. -/
def mainExitCode (o : PipelineOutcome) : ℕ :=
  match process_media_file o with
  | .ok is_match => if is_match then 0 else 1
  | .error _ => 2

/-- The branch outcomes of one `process_media_file` run that decide which
scratch resources get created and whether the cleanup block is reached:
whether `parse_filename` succeeds (lines 433-437), whether candidate stills
are available (lines 450-479), whether `shutil.copy2` makes the local copy
(lines 490-496; on failure `local_media_path` falls back to the source
path), whether `extract_frames` yields at least one frame (lines 503-505),
and whether loading the embedding model at lines 509-511 succeeds (an
Exception there is caught by the handler at lines 677-680). -/
structure ScratchConfig where
  parseOk : Bool
  stillsAvailable : Bool
  copyOk : Bool
  framesExtracted : Bool
  modelLoads : Bool
deriving DecidableEq, Repr

/-- Which scratch resources exist on disk when `process_media_file`
returns: the frame-extraction directory (created at line 314 inside
`extract_frames` before the decoder runs), the local media copy (line 493),
and how many downloaded temporary stills remain (line 537 writes them,
lines 669-674 delete them). -/
structure ScratchState where
  frames_dir : Bool
  local_media_copy : Bool
  temp_stills : ℕ
deriving DecidableEq, Repr

/-- Scratch lifecycle of one run, following the control flow of
`process_media_file`: the early returns at lines 437, 455, 479 happen
before any scratch is created; the zero-frames return at lines 503-505 and
an Exception at model load (caught at 677-680) happen after the local copy
and the frames directory exist, and run no cleanup; only the path that
reaches the end of the function executes the cleanup block at lines
655-674, which removes the frames directory, the local copy (when one was
made), and all downloaded temporary stills. -/
def process_media_scratch (cfg : ScratchConfig) : ScratchState :=
  if cfg.parseOk then
    if cfg.stillsAvailable then
      let afterExtract : ScratchState := ⟨true, cfg.copyOk, 0⟩
      if cfg.framesExtracted then
        if cfg.modelLoads then
          ⟨false, false, 0⟩
        else afterExtract
      else afterExtract
    else ⟨false, false, 0⟩
  else ⟨false, false, 0⟩

/-! Helper lemmas about the frame-scoring fold. -/

theorem scoreFrame_global_mono (i : ℕ) (p : SPath) (src : Source)
    (st : StillScan × GlobalBest) (r : ℕ × ℚ) :
    st.2.max_similarity ≤ (scoreFrame i p src st r).2.max_similarity := by
  unfold scoreFrame
  dsimp only
  split
  · exact le_of_lt (by assumption)
  · exact le_refl _

theorem scoreFrame_tie (i : ℕ) (p : SPath) (src : Source)
    (st : StillScan × GlobalBest) (r : ℕ × ℚ) (h : r.2 ≤ st.2.max_similarity) :
    (scoreFrame i p src st r).2 = st.2 := by
  unfold scoreFrame
  dsimp only
  rw [if_neg (not_lt.mpr h)]

theorem scoreFrame_still_le (i : ℕ) (p : SPath) (src : Source)
    (st : StillScan × GlobalBest) (r : ℕ × ℚ)
    (h : st.1.still_max_similarity ≤ st.2.max_similarity) :
    (scoreFrame i p src st r).1.still_max_similarity ≤
      (scoreFrame i p src st r).2.max_similarity := by
  unfold scoreFrame
  dsimp only
  by_cases h1 : st.1.still_max_similarity < r.2
  · by_cases h2 : st.2.max_similarity < r.2
    · rw [if_pos h1, if_pos h2]
    · rw [if_pos h1, if_neg h2]
      exact le_of_not_lt h2
  · by_cases h2 : st.2.max_similarity < r.2
    · rw [if_neg h1, if_pos h2]
      exact le_trans h (le_of_lt h2)
    · rw [if_neg h1, if_neg h2]
      exact h

theorem foldl_scoreFrame_global_mono (i : ℕ) (p : SPath) (src : Source)
    (rs : List (ℕ × ℚ)) (st : StillScan × GlobalBest) :
    st.2.max_similarity ≤
      (rs.foldl (scoreFrame i p src) st).2.max_similarity := by
  induction rs generalizing st with
  | nil => exact le_refl _
  | cons r rs ih =>
    exact le_trans (scoreFrame_global_mono i p src st r) (ih (scoreFrame i p src st r))

theorem foldl_scoreFrame_still_le (i : ℕ) (p : SPath) (src : Source)
    (rs : List (ℕ × ℚ)) (st : StillScan × GlobalBest)
    (h : st.1.still_max_similarity ≤ st.2.max_similarity) :
    (rs.foldl (scoreFrame i p src) st).1.still_max_similarity ≤
      (rs.foldl (scoreFrame i p src) st).2.max_similarity := by
  induction rs generalizing st with
  | nil => exact h
  | cons r rs ih =>
    exact ih (scoreFrame i p src st r) (scoreFrame_still_le i p src st r h)

theorem foldl_scoreFrame_glob_const (i : ℕ) (p : SPath) (src : Source)
    (rs : List (ℕ × ℚ)) (st : StillScan × GlobalBest)
    (h : ∀ r ∈ rs, r.2 ≤ st.2.max_similarity) :
    (rs.foldl (scoreFrame i p src) st).2 = st.2 := by
  induction rs generalizing st with
  | nil => rfl
  | cons r rs ih =>
    have hr : r.2 ≤ st.2.max_similarity := h r (List.mem_cons_self r rs)
    have hg : (scoreFrame i p src st r).2 = st.2 := scoreFrame_tie i p src st r hr
    have := ih (scoreFrame i p src st r) (fun r' hr' => hg ▸ h r' (List.mem_cons_of_mem r hr'))
    rwa [hg] at this

/-! Helper lemmas about batching. -/

theorem process_batch_append (env : RunEnv) (i : ℕ) (a b : List ℕ) :
    process_batch env i (a ++ b) = process_batch env i a ++ process_batch env i b :=
  List.filterMap_append a b _

theorem mem_process_batch_sim (env : RunEnv) (i : ℕ) (L : List ℕ) (r : ℕ × ℚ)
    (hr : r ∈ process_batch env i L) : r.1 ∈ L ∧ r.2 = env.sim i r.1 := by
  unfold process_batch at hr
  rcases List.mem_filterMap.mp hr with ⟨f, hf, hof⟩
  by_cases hc : env.frameOk i f = true
  · rw [if_pos hc] at hof
    cases hof
    exact ⟨hf, rfl⟩
  · rw [if_neg hc] at hof
    cases hof

theorem frameBatches_nil (bs : ℕ) : frameBatches bs [] = [] := by
  unfold frameBatches
  have h : (([] : List ℕ).length + bs - 1) / bs = 0 := by
    rcases Nat.eq_zero_or_pos bs with h0 | h0
    · subst h0
      rfl
    · simp only [List.length_nil, Nat.zero_add]
      exact Nat.div_eq_of_lt (Nat.sub_lt h0 Nat.one_pos)
  rw [h]
  rfl

theorem frameBatches_cons (bs : ℕ) (hbs : 0 < bs) (l : List ℕ) (hl : l ≠ []) :
    frameBatches bs l = l.take bs :: frameBatches bs (l.drop bs) := by
  unfold frameBatches
  have hlen : 1 ≤ l.length := List.length_pos.mpr hl
  have hnum : (l.length + bs - 1) / bs = (l.length - 1) / bs + 1 := by
    have h : l.length + bs - 1 = (l.length - 1) + bs := by omega
    rw [h, Nat.add_div_right _ hbs]
  have hnum' : ((l.drop bs).length + bs - 1) / bs = (l.length - 1) / bs := by
    rw [List.length_drop]
    rcases le_or_lt l.length bs with hle | hlt
    · have h1 : l.length - bs = 0 := by omega
      rw [h1]
      have h2 : l.length - 1 < bs := by omega
      rw [Nat.div_eq_of_lt (by omega), Nat.div_eq_of_lt h2]
    · have h : l.length - bs + bs - 1 = l.length - 1 := by omega
      rw [h]
  rw [hnum, hnum', List.range_succ_eq_map, List.map_cons]
  congr 1
  · simp
  · rw [List.map_map]
    apply List.map_congr_left
    intro i _
    simp only [Function.comp_apply, Nat.succ_mul, List.drop_drop]
    rw [Nat.add_comm]

theorem flatten_frameBatches_fuel (bs : ℕ) (hbs : 0 < bs) :
    ∀ (n : ℕ) (l : List ℕ), l.length ≤ n → (frameBatches bs l).flatten = l := by
  intro n
  induction n with
  | zero =>
    intro l hl
    have : l = [] := List.length_eq_zero.mp (Nat.le_zero.mp hl)
    subst this
    rw [frameBatches_nil]
    rfl
  | succ n ih =>
    intro l hl
    by_cases hnil : l = []
    · subst hnil
      rw [frameBatches_nil]
      rfl
    · rw [frameBatches_cons bs hbs l hnil, List.flatten_cons]
      have hlen : 1 ≤ l.length := List.length_pos.mpr hnil
      have : (l.drop bs).length ≤ n := by
        rw [List.length_drop]
        omega
      rw [ih (l.drop bs) this, List.take_append_drop]

theorem flatten_frameBatches (bs : ℕ) (hbs : 0 < bs) (l : List ℕ) :
    (frameBatches bs l).flatten = l :=
  flatten_frameBatches_fuel bs hbs l.length l (le_refl _)

theorem foldl_batches_flatten (env : RunEnv) (i : ℕ) (p : SPath) (src : Source)
    (bl : List (List ℕ)) (st : StillScan × GlobalBest) :
    bl.foldl (fun st batch => (process_batch env i batch).foldl (scoreFrame i p src) st) st =
      (process_batch env i bl.flatten).foldl (scoreFrame i p src) st := by
  induction bl generalizing st with
  | nil => rfl
  | cons b bl ih =>
    rw [List.foldl_cons, ih, List.flatten_cons, process_batch_append, List.foldl_append]

theorem scanFrames_eq_single (env : RunEnv) (i : ℕ) (p : SPath) (src : Source)
    (g : GlobalBest) :
    scanFrames env i p src g =
      (process_batch env i env.frames).foldl (scoreFrame i p src) (⟨0, none⟩, g) := by
  unfold scanFrames
  rw [foldl_batches_flatten, flatten_frameBatches BATCH_SIZE (by decide) env.frames]

/-! Helper lemmas about the per-still step and the still loop. -/

theorem processStill_some (env : RunEnv) (i : ℕ) (info : StillInfo) (g : GlobalBest)
    (g' : GlobalBest) (m : MatchResult)
    (h : processStill env i info g = some (g', m)) :
    ∃ sp : SPath,
      g' = (scanFrames env i sp info.source g).2 ∧
      m = ⟨i + 1, (scanFrames env i sp info.source g).1.still_max_similarity,
        (scanFrames env i sp info.source g).1.still_best_match, sp⟩ := by
  rcases info with ⟨fp, src⟩
  cases src <;> unfold processStill at h <;> dsimp only at h ⊢
  case forced =>
    by_cases hd : env.decodeOk i = true
    · rw [if_pos hd] at h
      injection h with h
      injection h with h1 h2
      exact ⟨.forcedPath fp, h1.symm, h2.symm⟩
    · rw [if_neg hd] at h
      cases h
  case unknown => cases h
  all_goals
    by_cases hdl : env.downloadOk i = true
  all_goals
    first
    | (rw [if_neg hdl] at h
       cases h)
    | (rw [if_pos hdl] at h
       dsimp only at h
       by_cases hd : env.decodeOk i = true
       · rw [if_pos hd] at h
         injection h with h
         injection h with h1 h2
         exact ⟨.tempStill (i + 1), h1.symm, h2.symm⟩
       · rw [if_neg hd] at h
         cases h)

theorem processStill_global_mono (env : RunEnv) (i : ℕ) (info : StillInfo)
    (g g' : GlobalBest) (m : MatchResult)
    (h : processStill env i info g = some (g', m)) :
    g.max_similarity ≤ g'.max_similarity := by
  obtain ⟨sp, hg, -⟩ := processStill_some env i info g g' m h
  subst hg
  rw [scanFrames_eq_single]
  exact foldl_scoreFrame_global_mono i sp info.source _ (⟨0, none⟩, g)

theorem processStill_result_le (env : RunEnv) (i : ℕ) (info : StillInfo)
    (g g' : GlobalBest) (m : MatchResult) (h0 : 0 ≤ g.max_similarity)
    (h : processStill env i info g = some (g', m)) :
    m.max_similarity ≤ g'.max_similarity := by
  obtain ⟨sp, hg, hm⟩ := processStill_some env i info g g' m h
  subst hg
  subst hm
  dsimp only
  rw [scanFrames_eq_single]
  exact foldl_scoreFrame_still_le i sp info.source _ (⟨0, none⟩, g) h0

theorem processStill_index (env : RunEnv) (i : ℕ) (info : StillInfo)
    (g g' : GlobalBest) (m : MatchResult)
    (h : processStill env i info g = some (g', m)) :
    m.still_index = i + 1 := by
  obtain ⟨sp, -, hm⟩ := processStill_some env i info g g' m h
  subst hm
  rfl

theorem processStills_global_mono (env : RunEnv) (t : ℚ) :
    ∀ (l : List StillInfo) (i : ℕ) (g : GlobalBest),
      g.max_similarity ≤ (processStills env t l i g).1.max_similarity := by
  intro l
  induction l with
  | nil => intro i g; exact le_refl _
  | cons info rest ih =>
    intro i g
    cases h : processStill env i info g with
    | none =>
      simp only [processStills, h]
      exact ih (i + 1) g
    | some p =>
      rcases p with ⟨g', m⟩
      have hm := processStill_global_mono env i info g g' m h
      simp only [processStills, h]
      split
      · exact hm
      · exact le_trans hm (ih (i + 1) g')

theorem processStills_mem_le (env : RunEnv) (t : ℚ) :
    ∀ (l : List StillInfo) (i : ℕ) (g : GlobalBest), 0 ≤ g.max_similarity →
      ∀ m ∈ (processStills env t l i g).2.1,
        m.max_similarity ≤ (processStills env t l i g).1.max_similarity := by
  intro l
  induction l with
  | nil => intro i g _ m hm; cases hm
  | cons info rest ih =>
    intro i g h0
    cases h : processStill env i info g with
    | none =>
      simp only [processStills, h]
      exact ih (i + 1) g h0
    | some p =>
      rcases p with ⟨g', m0⟩
      have hmono := processStill_global_mono env i info g g' m0 h
      have hrec := processStill_result_le env i info g g' m0 h0 h
      simp only [processStills, h]
      split
      · intro m hm
        rcases List.mem_singleton.mp hm with rfl
        exact hrec
      · intro m hm
        rcases List.mem_cons.mp hm with rfl | hm'
        · exact le_trans hrec (processStills_global_mono env t rest (i + 1) g')
        · exact ih (i + 1) g' (le_trans h0 hmono) m hm'

theorem processStills_index_lb (env : RunEnv) (t : ℚ) :
    ∀ (l : List StillInfo) (i : ℕ) (g : GlobalBest),
      ∀ m ∈ (processStills env t l i g).2.1, i + 1 ≤ m.still_index := by
  intro l
  induction l with
  | nil => intro i g m hm; cases hm
  | cons info rest ih =>
    intro i g
    cases h : processStill env i info g with
    | none =>
      simp only [processStills, h]
      intro m hm
      exact le_trans (Nat.le_succ _) (ih (i + 1) g m hm)
    | some p =>
      rcases p with ⟨g', m0⟩
      have hidx := processStill_index env i info g g' m0 h
      simp only [processStills, h]
      split
      · intro m hm
        rcases List.mem_singleton.mp hm with rfl
        omega
      · intro m hm
        rcases List.mem_cons.mp hm with rfl | hm'
        · omega
        · exact le_trans (Nat.le_succ _) (ih (i + 1) g' m hm')

theorem processStills_visited_lb (env : RunEnv) (t : ℚ) :
    ∀ (l : List StillInfo) (i : ℕ) (g : GlobalBest),
      ∀ j ∈ (processStills env t l i g).2.2, i ≤ j := by
  intro l
  induction l with
  | nil => intro i g j hj; cases hj
  | cons info rest ih =>
    intro i g
    cases h : processStill env i info g with
    | none =>
      simp only [processStills, h]
      intro j hj
      rcases List.mem_cons.mp hj with rfl | hj'
      · exact le_refl _
      · exact le_trans (Nat.le_succ _) (ih (i + 1) g j hj')
    | some p =>
      rcases p with ⟨g', m0⟩
      simp only [processStills, h]
      split
      · intro j hj
        rcases List.mem_singleton.mp hj with rfl
        exact le_refl _
      · intro j hj
        rcases List.mem_cons.mp hj with rfl | hj'
        · exact le_refl _
        · exact le_trans (Nat.le_succ _) (ih (i + 1) g' j hj')

theorem processStills_earlystop (env : RunEnv) (t : ℚ) :
    ∀ (l : List StillInfo) (i : ℕ) (g : GlobalBest),
      ∀ m ∈ (processStills env t l i g).2.1, t ≤ m.max_similarity →
        ∀ j ∈ (processStills env t l i g).2.2, j < m.still_index := by
  intro l
  induction l with
  | nil => intro i g m hm; cases hm
  | cons info rest ih =>
    intro i g
    cases h : processStill env i info g with
    | none =>
      simp only [processStills, h]
      intro m hm hsim j hj
      rcases List.mem_cons.mp hj with rfl | hj'
      · have := processStills_index_lb env t rest (j + 1) g m hm
        omega
      · exact ih (i + 1) g m hm hsim j hj'
    | some p =>
      rcases p with ⟨g', m0⟩
      have hidx := processStill_index env i info g g' m0 h
      simp only [processStills, h]
      split
      · intro m hm hsim j hj
        rcases List.mem_singleton.mp hm with rfl
        rcases List.mem_singleton.mp hj with rfl
        omega
      · rename_i hstop
        intro m hm hsim j hj
        rcases List.mem_cons.mp hm with rfl | hm'
        · exact absurd hsim hstop
        · rcases List.mem_cons.mp hj with rfl | hj'
          · have := processStills_index_lb env t rest (j + 1) g' m hm'
            omega
          · exact ih (i + 1) g' m hm' hsim j hj'

theorem processStill_init_nonpos (env : RunEnv)
    (hneg : ∀ (i f : ℕ), f ∈ env.frames → env.sim i f ≤ 0)
    (i : ℕ) (info : StillInfo) (g' : GlobalBest) (m : MatchResult)
    (h : processStill env i info GlobalBest.init = some (g', m)) :
    g' = GlobalBest.init := by
  obtain ⟨sp, hg, -⟩ := processStill_some env i info GlobalBest.init g' m h
  subst hg
  rw [scanFrames_eq_single]
  apply foldl_scoreFrame_glob_const
  intro r hr
  obtain ⟨hmem, hsim⟩ := mem_process_batch_sim env i env.frames r hr
  rw [hsim]
  exact hneg i r.1 hmem

theorem processStills_init_nonpos (env : RunEnv) (t : ℚ)
    (hneg : ∀ (i f : ℕ), f ∈ env.frames → env.sim i f ≤ 0) :
    ∀ (l : List StillInfo) (i : ℕ),
      (processStills env t l i GlobalBest.init).1 = GlobalBest.init := by
  intro l
  induction l with
  | nil => intro i; rfl
  | cons info rest ih =>
    intro i
    cases h : processStill env i info GlobalBest.init with
    | none =>
      simp only [processStills, h]
      exact ih (i + 1)
    | some p =>
      rcases p with ⟨g', m0⟩
      have hg' := processStill_init_nonpos env hneg i info g' m0 h
      subst hg'
      simp only [processStills, h]
      split
      · rfl
      · exact ih (i + 1)

/-! Claim theorems. -/

/-- C1 counterexample: a run whose single candidate still fails to download
records no MatchResult at all; strict mode (`all` over the empty
`still_matches`) then reports a match while lenient mode (global best 0.0
against threshold 0.79) does not — so the strict verdict is strictly more
permissive than the lenient one on this run, refuting the claim for runs
with an empty MatchResult list. -/
theorem c1_counterexample :
    (runMatch ⟨[0], fun _ => false, fun _ => true, fun _ _ => true, fun _ _ => 0⟩
        EARLY_STOP_THRESHOLD [⟨5, .tmdb⟩]).2.1 = [] ∧
    strictVerdict EARLY_STOP_THRESHOLD
      (runMatch ⟨[0], fun _ => false, fun _ => true, fun _ _ => true, fun _ _ => 0⟩
        EARLY_STOP_THRESHOLD [⟨5, .tmdb⟩]).2.1 = true ∧
    lenientVerdict EARLY_STOP_THRESHOLD
      (runMatch ⟨[0], fun _ => false, fun _ => true, fun _ _ => true, fun _ _ => 0⟩
        EARLY_STOP_THRESHOLD [⟨5, .tmdb⟩]).1 = false :=
  ⟨rfl, rfl, show decide ((79 : ℚ) / 100 ≤ (0 : ℚ)) = false from
    decide_eq_false_iff_not.mpr (by norm_num)⟩

/-- C1 (amended): for every run that records at least one MatchResult, a
strict-mode match implies a lenient-mode match at the same threshold: every
recorded per-still best similarity is bounded by the final global best
similarity. -/
theorem c1_strict_implies_lenient (env : RunEnv) (t : ℚ) (stills : List StillInfo)
    (hne : (runMatch env t stills).2.1 ≠ [])
    (hs : strictVerdict t (runMatch env t stills).2.1 = true) :
    lenientVerdict t (runMatch env t stills).1 = true := by
  rcases List.exists_mem_of_ne_nil _ hne with ⟨m, hm⟩
  unfold strictVerdict at hs
  have hms : t ≤ m.max_similarity :=
    of_decide_eq_true (List.all_eq_true.mp hs m hm)
  have hle : m.max_similarity ≤ (runMatch env t stills).1.max_similarity :=
    processStills_mem_le env t stills 0 GlobalBest.init (le_refl 0) m hm
  exact decide_eq_true (le_trans hms hle)

/-- C1 witness: a run with one successfully processed still whose best
similarity 2 clears threshold 1 is a strict match, hence a lenient match. -/
theorem c1_strict_implies_lenient_witness :
    lenientVerdict 1
      (runMatch ⟨[0], fun _ => true, fun _ => true, fun _ _ => true, fun _ _ => 2⟩
        1 [⟨5, .tmdb⟩]).1 = true :=
  c1_strict_implies_lenient
    ⟨[0], fun _ => true, fun _ => true, fun _ _ => true, fun _ _ => 2⟩ 1 [⟨5, .tmdb⟩]
    (by decide) (by decide)

/-- C2 counterexample: an Exception raised inside the pipeline body of
`process_media_file` is caught by its blanket handler (lines 677-680) and
turned into `return False`, so the process exits with code 1, not 2. -/
theorem c2_counterexample :
    mainExitCode PipelineOutcome.raises = 1 ∧ mainExitCode PipelineOutcome.raises ≠ 2 :=
  ⟨rfl, by decide⟩

/-- C2 (amended): the process exits 0 exactly when `process_media_file`
runs to completion returning a match, and exits 1 in every other case —
including a run whose pipeline raised an Exception, because the blanket
handler inside `process_media_file` converts it to `False`; the exit-2
branch of `main` is unreachable for Exceptions raised inside the
pipeline. -/
theorem c2_exit_codes (o : PipelineOutcome) :
    mainExitCode o = (if o = PipelineOutcome.ok true then 0 else 1) ∧
    mainExitCode o ≠ 2 := by
  cases o with
  | ok b => cases b <;> exact ⟨rfl, by decide⟩
  | raises => exact ⟨rfl, by decide⟩

/-- C2 witness: a matching run exits 0 and not 2. -/
theorem c2_exit_codes_witness : mainExitCode (PipelineOutcome.ok true) = 0 :=
  (c2_exit_codes (PipelineOutcome.ok true)).1.trans (by decide)

/-- C3 counterexample: a run that parses, finds stills, copies the video
and then extracts zero frames returns `False` at lines 503-505 without
reaching the cleanup block, leaving the frames directory and the local
media copy on disk at exit. -/
theorem c3_counterexample :
    process_media_scratch ⟨true, true, true, false, true⟩ = ⟨true, true, 0⟩ ∧
    (⟨true, true, 0⟩ : ScratchState) ≠ ⟨false, false, 0⟩ :=
  ⟨rfl, by decide⟩

/-- C3 (amended): scratch resources are fully removed on runs that fail
before any scratch is created (parse failure, no candidate stills) and on
runs that reach the end of `process_media_file` (frames extracted and the
embedding model loaded); but the zero-frames early return and an Exception
after extraction (e.g. at model load, caught by the blanket handler) leave
the frames directory and the local media copy on disk. -/
theorem c3_cleanup (cfg : ScratchConfig) :
    (cfg.framesExtracted = true → cfg.modelLoads = true →
      process_media_scratch cfg = ⟨false, false, 0⟩) ∧
    (cfg.parseOk = false ∨ cfg.stillsAvailable = false →
      process_media_scratch cfg = ⟨false, false, 0⟩) := by
  rcases cfg with ⟨p, s, c, f, m⟩
  cases p <;> cases s <;> cases f <;> cases m <;>
    simp [process_media_scratch]

/-- C3 witness: a fully successful run ends with all scratch removed. -/
theorem c3_cleanup_witness :
    process_media_scratch ⟨true, true, true, true, true⟩ = ⟨false, false, 0⟩ :=
  (c3_cleanup ⟨true, true, true, true, true⟩).1 rfl rfl

/-- C4: a threshold below the default 0.79 is clamped to the next 0.01
boundary strictly greater than it (a multiple of 1/100, above the supplied
value, minimal among such boundaries) and never above the default; a
threshold at or above the default is used unchanged; 0.50 yields 0.51 and
0.85 yields 0.85. -/
theorem c4_threshold_clamping (t : ℚ) :
    (t < EARLY_STOP_THRESHOLD →
      t < clampThreshold t ∧
      clampThreshold t ≤ EARLY_STOP_THRESHOLD ∧
      (∃ k : ℤ, clampThreshold t = (k : ℚ) / 100) ∧
      (∀ k : ℤ, t < (k : ℚ) / 100 → clampThreshold t ≤ (k : ℚ) / 100)) ∧
    (EARLY_STOP_THRESHOLD ≤ t → clampThreshold t = t) ∧
    clampThreshold (50 / 100) = 51 / 100 ∧
    clampThreshold (85 / 100) = 85 / 100 := by
  have hmain : t < EARLY_STOP_THRESHOLD →
      clampThreshold t = ((⌊t * 100⌋ : ℤ) + 1 : ℚ) / 100 := by
    intro ht
    have hfl : ⌊t * 100⌋ < 79 := by
      rw [Int.floor_lt]
      rw [EARLY_STOP_THRESHOLD] at ht
      push_cast
      linarith
    have hb : ((⌊t * 100⌋ : ℤ) + 1 : ℚ) / 100 ≤ EARLY_STOP_THRESHOLD := by
      rw [EARLY_STOP_THRESHOLD]
      have h79 : ((⌊t * 100⌋ : ℤ) + 1 : ℚ) ≤ 79 := by exact_mod_cast hfl
      linarith
    unfold clampThreshold
    rw [if_pos ht]
    dsimp only
    rw [if_neg (not_lt.mpr hb)]
  refine ⟨?_, ?_, ?_, ?_⟩
  · intro ht
    have hcl := hmain ht
    have hb : ((⌊t * 100⌋ : ℤ) + 1 : ℚ) / 100 ≤ EARLY_STOP_THRESHOLD := by
      have hfl : ⌊t * 100⌋ < 79 := by
        rw [Int.floor_lt]
        rw [EARLY_STOP_THRESHOLD] at ht
        push_cast
        linarith
      rw [EARLY_STOP_THRESHOLD]
      have h79 : ((⌊t * 100⌋ : ℤ) + 1 : ℚ) ≤ 79 := by exact_mod_cast hfl
      linarith
    refine ⟨?_, hcl ▸ hb, ⟨⌊t * 100⌋ + 1, by rw [hcl]; push_cast; ring⟩, ?_⟩
    · rw [hcl, lt_div_iff₀ (by norm_num : (0:ℚ) < 100)]
      have hlf := Int.lt_floor_add_one (t * 100)
      linarith
    · intro k hk
      rw [hcl]
      have h1 : t * 100 < (k : ℚ) := by
        rw [lt_div_iff₀ (by norm_num : (0:ℚ) < 100)] at hk
        linarith
      have h2 : ⌊t * 100⌋ < k := Int.floor_lt.mpr h1
      have h3 : ((⌊t * 100⌋ : ℤ) + 1 : ℚ) ≤ (k : ℚ) := by exact_mod_cast h2
      exact div_le_div_of_nonneg_right h3 (by norm_num) |>.trans_eq rfl
  · intro ht
    unfold clampThreshold
    rw [if_neg (not_lt.mpr ht)]
  · norm_num [clampThreshold, EARLY_STOP_THRESHOLD]
  · norm_num [clampThreshold, EARLY_STOP_THRESHOLD]

/-- C4 witness: instantiating the clamping theorem at 0.50 (below the
default) and using its concrete conjuncts. -/
theorem c4_threshold_clamping_witness :
    (50 / 100 : ℚ) < clampThreshold (50 / 100) ∧
    clampThreshold (50 / 100) ≤ EARLY_STOP_THRESHOLD ∧
    clampThreshold (85 / 100) = 85 / 100 := by
  have h := c4_threshold_clamping (50 / 100)
  have h1 := h.1 (by rw [EARLY_STOP_THRESHOLD]; norm_num)
  exact ⟨h1.1, h1.2.1, h.2.2.2⟩

/-- C5: the effectively processed candidate list is the concatenation of
the OMDb, TVDB and TMDB provider results, in that provider order,
preserving each provider's internal order, truncated to at most
`max_stills` entries; a provider that failed or returned nothing
(modelled `none`) contributes nothing without affecting the others. -/
theorem c5_broker_ordering (oa ob oc : Option (List ℕ)) (max_stills : ℕ) :
    effectiveStills (gatherProviderStills oa ob oc) max_stills =
      ((oa.getD []).map (fun p => (⟨p, .omdb⟩ : StillInfo)) ++
       (ob.getD []).map (fun p => (⟨p, .tvdb⟩ : StillInfo)) ++
       (oc.getD []).map (fun p => (⟨p, .tmdb⟩ : StillInfo))).take max_stills ∧
    (effectiveStills (gatherProviderStills oa ob oc) max_stills).length ≤ max_stills := by
  have htag : ∀ (o : Option (List ℕ)) (s : Source),
      tagStills o s = (o.getD []).map (fun p => (⟨p, s⟩ : StillInfo)) := by
    intro o s
    cases o with
    | none => rfl
    | some l =>
      cases l with
      | nil => rfl
      | cons a l => simp [tagStills]
  have heff : ∀ (l : List StillInfo) (n : ℕ), effectiveStills l n = l.take n := by
    intro l n
    unfold effectiveStills
    rw [min_comm, ← List.take_take, List.take_length]
  constructor
  · rw [heff]
    unfold gatherProviderStills
    rw [htag, htag, htag]
    simp [List.append_assoc]
  · rw [heff]
    exact List.length_take_le max_stills _

/-- C6: once a processed still's recorded best similarity reaches the
threshold, the loop breaks: every candidate index the loop ever visited
(and hence every download, embedding, scoring or MatchResult recording)
lies strictly before that still's index — no later candidate is touched. -/
theorem c6_early_stop (env : RunEnv) (t : ℚ) (stills : List StillInfo)
    (m : MatchResult) (hm : m ∈ (runMatch env t stills).2.1)
    (hsim : t ≤ m.max_similarity) :
    ∀ j ∈ (runMatch env t stills).2.2, j < m.still_index :=
  processStills_earlystop env t stills 0 GlobalBest.init m hm hsim

/-- C6 witness: with two candidate stills and similarity 2 ≥ threshold 1
the run stops at the first still (index 1), having visited only index 0. -/
theorem c6_early_stop_witness : (0 : ℕ) < 1 :=
  c6_early_stop ⟨[0], fun _ => true, fun _ => true, fun _ _ => true, fun _ _ => 2⟩
    1 [⟨5, .tmdb⟩, ⟨6, .tmdb⟩] ⟨1, 2, some 0, .tempStill 1⟩
    (by decide) (by decide) 0 (by decide)

/-- C7: the global best similarity never decreases at any (still, frame)
scoring step; a similarity that does not strictly exceed the current
global best leaves the entire GlobalBest tuple unchanged (ties keep the
earlier-found best); and across any whole run segment the global best
similarity is monotonically non-decreasing. -/
theorem c7_global_best_monotone (still_index : ℕ) (still_path : SPath)
    (source : Source) (st : StillScan × GlobalBest) (r : ℕ × ℚ) (env : RunEnv)
    (t : ℚ) (stills : List StillInfo) (i : ℕ) (g : GlobalBest) :
    st.2.max_similarity ≤ (scoreFrame still_index still_path source st r).2.max_similarity ∧
    (r.2 ≤ st.2.max_similarity →
      (scoreFrame still_index still_path source st r).2 = st.2) ∧
    g.max_similarity ≤ (processStills env t stills i g).1.max_similarity :=
  ⟨scoreFrame_global_mono still_index still_path source st r,
   scoreFrame_tie still_index still_path source st r,
   processStills_global_mono env t stills i g⟩

/-- C7 witness: a tied (in fact lower) similarity leaves the initial
GlobalBest tuple untouched. -/
theorem c7_global_best_monotone_witness :
    (scoreFrame 0 (SPath.tempStill 1) Source.tmdb (⟨0, none⟩, GlobalBest.init)
      (7, -1)).2 = GlobalBest.init :=
  (c7_global_best_monotone 0 (SPath.tempStill 1) Source.tmdb (⟨0, none⟩, GlobalBest.init)
    (7, -1) ⟨[], fun _ => true, fun _ => true, fun _ _ => true, fun _ _ => 0⟩
    0 [] 0 GlobalBest.init).2.1 (by decide)

/-- C8: scanning a still's frames in batches of `BATCH_SIZE = 10` produces
exactly the same per-still best similarity, best-matching frame and
GlobalBest state as scanning the frames one by one in extraction order —
batching does not affect any result. -/
theorem c8_batching_equivalence (env : RunEnv) (still_index : ℕ) (still_path : SPath)
    (source : Source) (g : GlobalBest) :
    scanFrames env still_index still_path source g =
      scanFramesOneByOne env still_index still_path source g :=
  scanFrames_eq_single env still_index still_path source g

/-- C9: when a manual still path is supplied (and the file exists), the
candidate list is exactly the single forced candidate referencing that
path, whatever any provider would have returned, and no provider is
consulted. -/
theorem c9_forced_still (p : ℕ) (omdb_images tvdb_images episode_images : Option (List ℕ)) :
    gatherCandidates (some p) true omdb_images tvdb_images episode_images =
      some [⟨p, .forced⟩] ∧
    providersQueried (some p) = [] :=
  ⟨rfl, rfl⟩

/-- C10: the global best similarity of any run is at least 0 (it starts at
0.0 and only ever increases); in a run whose every similarity is ≤ 0 the
GlobalBest stays in its initial state — best 0.0, no best-matching frame —
and no best-match comparison artifact is emitted. -/
theorem c10_nonnegative_best (env : RunEnv) (t : ℚ) (stills : List StillInfo) :
    0 ≤ (runMatch env t stills).1.max_similarity ∧
    ((∀ (i f : ℕ), f ∈ env.frames → env.sim i f ≤ 0) →
      (runMatch env t stills).1 = GlobalBest.init ∧
      (runMatch env t stills).1.max_similarity = 0 ∧
      (runMatch env t stills).1.best_match_frame = none ∧
      emitsBestArtifact (runMatch env t stills).1 = false) := by
  constructor
  · exact processStills_global_mono env t stills 0 GlobalBest.init
  · intro hneg
    have h := processStills_init_nonpos env t hneg stills 0
    refine ⟨h, ?_, ?_, ?_⟩ <;> rw [show (runMatch env t stills).1 = GlobalBest.init from h] <;> rfl

/-- C10 witness: a run in which every similarity is -1 keeps the initial
GlobalBest. -/
theorem c10_nonnegative_best_witness :
    (runMatch ⟨[0, 1], fun _ => true, fun _ => true, fun _ _ => true, fun _ _ => -1⟩
        1 [⟨5, .tmdb⟩]).1 = GlobalBest.init :=
  ((c10_nonnegative_best
      ⟨[0, 1], fun _ => true, fun _ => true, fun _ _ => true, fun _ _ => -1⟩
      1 [⟨5, .tmdb⟩]).2 (fun _ _ _ => neg_nonpos.mpr zero_le_one)).1

end ClipMatcher
